import Mathlib

/-!
# Verification of the mlops-platform-cli job packaging and submission pipeline

Shallow embedding, in Lean 4, of the pure logic of `mlp/utils/k8s.py` and the
env-var parsing of `mlp/commands/experiment.py` / `mlp/commands/model.py`,
together with theorems settling the specification claims about it.

Conventions of the embedding:
* Python strings are modelled as `List Char`; `str.replace` with a single-char
  pattern is `replaceChar`, and the container-side `sed` substitution of `__`
  by `/` is `decodeKey`.
* Kubernetes counter fields that may be `None` are modelled as `Option Nat`;
  the Python truthiness test `x and x > 0` is `posCount`.
* The filesystem walk `path.rglob("*")` filtered by `is_file()` is modelled by
  an input list of `FileEntry` (the regular files below the root, as relative
  component paths). A binary file is carried as the base64 text that
  `base64.b64encode(...).decode()` produces for it, since only that encoded
  text (and its length) ever enters the ConfigMap data.
* Remote calls are modelled by their observable outcome: the create call
  either succeeds or fails with an HTTP status, and the code under
  verification decides what to do with that outcome.
-/

/-- Python truthiness test `x and x > 0` on an optional counter
(`job.status.active and job.status.active > 0`, k8s.py lines 357-361). -/
def posCount : Option Nat → Bool
  | none => false
  | some n => decide (0 < n)

/-- Derived job status, from `list_jobs` (k8s.py lines 356-362):
`status = "Unknown"`, then `if active: Running elif succeeded: Completed
elif failed: Failed`. -/
def deriveStatus (active succeeded failed : Option Nat) : String :=
  if posCount active then "Running"
  else if posCount succeeded then "Completed"
  else if posCount failed then "Failed"
  else "Unknown"

/-- The three counters of a polled job status (`job.status` as read by
`wait_for_job`, k8s.py lines 278-288). -/
structure JobStatus where
  active : Option Nat
  succeeded : Option Nat
  failed : Option Nat
  deriving DecidableEq

/-- Observable outcome of `wait_for_job` (k8s.py lines 265-295): normal
return (`running`), `RuntimeError` (`jobFailedError`), or `TimeoutError`
(`timeoutError`). The two error constructors are distinct error kinds. -/
inductive WaitOutcome where
  | running
  | jobFailedError
  | timeoutError
  deriving DecidableEq

/-- `wait_for_job` (k8s.py lines 265-295) over the sequence of statuses the
poll loop observes before its time budget elapses: each iteration first
returns if `active > 0`, else raises `RuntimeError` if `failed > 0`, else
sleeps and polls again; when the budget is exhausted (the poll list runs
out) it raises `TimeoutError`. -/
def wait_for_job : List JobStatus → WaitOutcome
  | [] => .timeoutError
  | st :: rest =>
    if posCount st.active then .running
    else if posCount st.failed then .jobFailedError
    else wait_for_job rest

/-- Python `s.replace(a, r)` for a one-character pattern `a`: every
occurrence of `a` is replaced by `r`, left to right. -/
def replaceChar (a : Char) (r : List Char) : List Char → List Char
  | [] => []
  | c :: rest => (if c = a then r else [c]) ++ replaceChar a r rest

/-- Bundle-key encoding from `create_configmap_from_path` (k8s.py line 84):
`str(relative_path).replace("\\", "__").replace("/", "__")`. -/
def encodeKey (s : List Char) : List Char :=
  replaceChar '/' ['_', '_'] (replaceChar '\\' ['_', '_'] s)

/-- Container-side key decoding from the job entrypoint (k8s.py line 211):
`sed 's/__/\//g'`, i.e. left-to-right non-overlapping replacement of the
two-character pattern `__` by `/`. -/
def decodeKey : List Char → List Char
  | [] => []
  | [c] => [c]
  | c :: d :: rest =>
    if c = '_' ∧ d = '_' then '/' :: decodeKey rest
    else c :: decodeKey (d :: rest)

/-- Whether a string contains the two-character substring `__`. -/
def hasDunder : List Char → Bool
  | [] => false
  | [_] => false
  | c :: d :: rest => (decide (c = '_') && decide (d = '_')) || hasDunder (d :: rest)

/-- Whether a string contains an underscore immediately followed by a path
separator `/`. -/
def hasUnderscoreSlash : List Char → Bool
  | [] => false
  | [_] => false
  | c :: d :: rest => (decide (c = '_') && decide (d = '/')) || hasUnderscoreSlash (d :: rest)

/-- Content of one regular file, as it enters the ConfigMap data
(k8s.py lines 85-94): either the text that `read_text()` returned, or —
when `read_text()` raised `UnicodeDecodeError` — the base64 text that
`base64.b64encode(file_path.read_bytes()).decode()` produced. -/
inductive FileContent where
  | text (chars : List Char)
  | binary (base64Chars : List Char)
  deriving DecidableEq

/-- The string stored as the ConfigMap value for a file (k8s.py lines 88, 93). -/
def encodeContent : FileContent → List Char
  | .text s => s
  | .binary b => b

/-- `len(content)` / `len(encoded)` as added to `total_size`
(k8s.py lines 89, 94). -/
def encodedLen (c : FileContent) : Nat :=
  (encodeContent c).length

/-- One regular file below the packaged root: its path relative to the root,
as the list of path components `relative.parts`, and its content. The input
directory is modelled as the list of these files, in `rglob` order. -/
structure FileEntry where
  parts : List (List Char)
  content : FileContent
  deriving DecidableEq

/-- `str(relative_path)`: the relative path components joined by the `/`
separator. -/
def renderPath : List (List Char) → List Char
  | [] => []
  | [p] => p
  | p :: q :: rest => p ++ '/' :: renderPath (q :: rest)

/-- `exclude_patterns` of `create_configmap_from_path` (k8s.py lines 55-59). -/
def excludePatterns : List (List Char) :=
  [ "mlruns".toList, "models".toList, ".git".toList, "__pycache__".toList,
    ".ipynb_checkpoints".toList, "data".toList, "notebooks".toList,
    ".dvc".toList, ".pytest_cache".toList, ".venv".toList, "venv".toList,
    "*.pyc".toList, "*.pyo".toList, "*.pyd".toList, ".DS_Store".toList,
    "*.egg-info".toList ]

/-- `should_exclude` (k8s.py lines 61-74): a file is excluded when some
pattern occurs as one of its path components, or the pattern contains `*`
and the file name (its last component) ends with the pattern minus its
first character. -/
def should_exclude (parts : List (List Char)) : Bool :=
  excludePatterns.any (fun pattern =>
    parts.contains pattern ||
      (pattern.contains '*' && (pattern.drop 1).isSuffixOf (parts.getLastD [])))

/-- Python `dict` assignment `d[k] = v`: replace the value in place when the
key is already bound, otherwise append the new binding. -/
def dictInsert {α β : Type} [DecidableEq α] (d : List (α × β)) (k : α) (v : β) :
    List (α × β) :=
  if d.any (fun p => p.1 = k) then
    d.map (fun p => if p.1 = k then (k, v) else p)
  else d ++ [(k, v)]

/-- Python `dict` lookup `d[k]` (keys are unique, so first match). -/
def dictLookup {α β : Type} [DecidableEq α] (d : List (α × β)) (k : α) : Option β :=
  match d with
  | [] => none
  | p :: rest => if p.1 = k then some p.2 else dictLookup rest k

/-- Result of the packaging phase of `create_configmap_from_path`
(k8s.py lines 77-103): the `data` dict, the `total_size` counter, and
whether the 2MB warning fired. The warning is non-fatal: the data is part
of the result in either case. -/
structure PackResult where
  data : List (List Char × List Char)
  total : Nat
  warned : Bool
  deriving DecidableEq

/-- One iteration of the packaging loop (k8s.py lines 79-94): skip excluded
files, otherwise store the (encoded-key, content) pair in the dict and add
the content length to the running total. -/
def packStep (acc : List (List Char × List Char) × Nat) (f : FileEntry) :
    List (List Char × List Char) × Nat :=
  if should_exclude f.parts then acc
  else
    (dictInsert acc.1 (encodeKey (renderPath f.parts)) (encodeContent f.content),
     acc.2 + encodedLen f.content)

/-- The packaging phase of `create_configmap_from_path` (k8s.py lines
77-103): fold the loop over the files, then compare `total_size` with the
2,000,000 warning threshold (line 99). Packaging proceeds to build the
ConfigMap from `data` whether or not the warning fired. -/
def create_configmap_data (files : List FileEntry) : PackResult :=
  let p := files.foldl packStep ([], 0)
  ⟨p.1, p.2, decide (2000000 < p.2)⟩

/-- The files the packaging loop keeps (not excluded), in order. -/
def includedFiles (files : List FileEntry) : List FileEntry :=
  files.filter (fun f => !should_exclude f.parts)

/-- The Bundle keys: the keys of the packaged `data` dict. -/
def bundleKeys (files : List FileEntry) : List (List Char) :=
  (create_configmap_data files).data.map (fun p => p.1)

/-- A character allowed in a ConfigMap key by the regex `[-._a-zA-Z0-9]`
(cited at k8s.py line 82). -/
def isKeyChar (c : Char) : Bool :=
  c = '-' || c = '.' || c = '_' || c.isAlpha || c.isDigit

/-- A valid ConfigMap key: non-empty and matching `[-._a-zA-Z0-9]+`. -/
def isValidKey (k : List Char) : Bool :=
  !k.isEmpty && k.all isKeyChar

/-- Observable outcome of one remote create call: success, or an
`ApiException` with an HTTP status code. -/
inductive ApiResult where
  | ok
  | apiError (status : Nat)
  deriving DecidableEq

/-- What the client does with the create call's outcome. -/
inductive UpsertOutcome where
  | created
  | replaced
  | raised (status : Nat)
  deriving DecidableEq

/-- ConfigMap creation policy of `create_configmap_from_path` (k8s.py lines
111-119): create; on `ApiException` with status 409 (already exists),
replace; any other `ApiException` is re-raised. -/
def configmapCreateOrReplace : ApiResult → UpsertOutcome
  | .ok => .created
  | .apiError s => if s = 409 then .replaced else .raised s

/-- Job creation policy of `submit_training_job` (k8s.py lines 256-262):
create; every `ApiException` — a 409 name collision included — is logged
and re-raised, never auto-replaced. -/
def jobCreate : ApiResult → UpsertOutcome
  | .ok => .created
  | .apiError s => .raised s

/-- Deployment creation policy of `deploy_model` (k8s.py lines 580-588):
create; on status 409 replace; otherwise re-raise. -/
def deploymentCreateOrReplace : ApiResult → UpsertOutcome
  | .ok => .created
  | .apiError s => if s = 409 then .replaced else .raised s

/-- Service creation policy of `deploy_model` (k8s.py lines 606-614):
create; on status 409 replace; otherwise re-raise. -/
def serviceCreateOrReplace : ApiResult → UpsertOutcome
  | .ok => .created
  | .apiError s => if s = 409 then .replaced else .raised s

/-- `V1ResourceRequirements` as built by `submit_training_job`: the
`requests` and `limits` dicts. -/
structure ResourceRequirements where
  requests : List (String × String)
  limits : List (String × String)
  deriving DecidableEq

/-- Resource construction of `submit_training_job` (k8s.py lines 169-184):
requests and limits both carry the same `cpu` and `memory` strings, and
when `gpu > 0` the key `nvidia.com/gpu` is added to both with value
`str(gpu)`. -/
def buildJobResources (cpu memory : String) (gpu : Int) : ResourceRequirements :=
  let base : ResourceRequirements :=
    ⟨[("cpu", cpu), ("memory", memory)], [("cpu", cpu), ("memory", memory)]⟩
  if 0 < gpu then
    ⟨base.requests ++ [("nvidia.com/gpu", toString gpu)],
     base.limits ++ [("nvidia.com/gpu", toString gpu)]⟩
  else base

/-- Age formatting of `list_jobs` (k8s.py lines 376-383): fixed breakpoints
with truncating integer division. -/
def ageStrJobs (age : Nat) : String :=
  if age < 60 then toString age ++ "s"
  else if age < 3600 then toString (age / 60) ++ "m"
  else if age < 86400 then toString (age / 3600) ++ "h"
  else toString (age / 86400) ++ "d"

/-- Age formatting of `list_model_deployments` (k8s.py lines 660-667),
textually identical to the one in `list_jobs`. -/
def ageStrDeployments (age : Nat) : String :=
  if age < 60 then toString age ++ "s"
  else if age < 3600 then toString (age / 60) ++ "m"
  else if age < 86400 then toString (age / 3600) ++ "h"
  else toString (age / 86400) ++ "d"

/-- An HTTP-GET probe as built by `deploy_model`: health path, port,
initial delay, period. -/
structure Probe where
  httpGetPath : String
  httpGetPort : Int
  initialDelaySeconds : Nat
  periodSeconds : Nat
  deriving DecidableEq

/-- Readiness probe of `deploy_model` (k8s.py lines 541-548): GET /health
on the service port, initial delay 30s, period 10s. -/
def readinessProbe (port : Int) : Probe :=
  ⟨"/health", port, 30, 10⟩

/-- Liveness probe of `deploy_model` (k8s.py lines 549-556): GET /health
on the service port, initial delay 45s, period 15s. -/
def livenessProbe (port : Int) : Probe :=
  ⟨"/health", port, 45, 15⟩

/-- Python `e.split("=", 1)` guarded by `"=" not in e`: `none` when the
string has no `=`, otherwise the prefix before the first `=` and the whole
remainder after it. -/
def splitEqFirst : List Char → Option (List Char × List Char)
  | [] => none
  | c :: rest =>
    if c = '=' then some ([], rest)
    else (splitEqFirst rest).map (fun kv => (c :: kv.1, kv.2))

/-- The env-var parsing loop shared by `run` (experiment.py lines 259-266)
and `deploy_cmd` (model.py lines 83-91): iterate over the arguments; an
argument without `=` aborts the command (result `none`); otherwise split at
the first `=` and assign into the dict, overwriting any earlier binding of
the same key. -/
def parseEnvAux : List (List Char) → List (List Char × List Char) →
    Option (List (List Char × List Char))
  | [], acc => some acc
  | e :: rest, acc =>
    match splitEqFirst e with
    | none => none
    | some kv => parseEnvAux rest (dictInsert acc kv.1 kv.2)

/-- Env-var parsing of the run and deploy commands, starting from the empty
dict. -/
def parse_env_vars (args : List (List Char)) :
    Option (List (List Char × List Char)) :=
  parseEnvAux args []

/-- Where the command goes after the env-parsing loop: `click.Abort` before
any remote call, or on to submission with the parsed dict (the only branch
that performs remote calls). -/
inductive EnvParseOutcome where
  | abortedValidation
  | proceed (env : List (List Char × List Char))
  deriving DecidableEq

/-- The validation stage of `run` / `deploy_cmd` around the env loop:
abort on a malformed pair, otherwise proceed to submission. -/
def run_env_stage (args : List (List Char)) : EnvParseOutcome :=
  match parse_env_vars args with
  | none => .abortedValidation
  | some d => .proceed d

/-- C1: For every job status record with counters (active, succeeded,
failed), the derived status is computed by the fixed precedence: Running if
active>0, else Completed if succeeded>0, else Failed if failed>0, else
Unknown; whenever more than one counter is nonzero the result is determined
by this order (and `deriveStatus` is a function, hence deterministic). -/
theorem deriveStatus_precedence (a s f : Option Nat) :
    (posCount a = true → deriveStatus a s f = "Running") ∧
    (posCount a = false → posCount s = true → deriveStatus a s f = "Completed") ∧
    (posCount a = false → posCount s = false → posCount f = true →
      deriveStatus a s f = "Failed") ∧
    (posCount a = false → posCount s = false → posCount f = false →
      deriveStatus a s f = "Unknown") := by
  refine ⟨?_, ?_, ?_, ?_⟩ <;> intros <;> simp_all [deriveStatus]

/-- Witness for `deriveStatus_precedence` at concrete counters, including
records where more than one counter is nonzero. -/
theorem deriveStatus_precedence_witness :
    deriveStatus (some 2) (some 1) (some 1) = "Running" ∧
    deriveStatus (some 0) (some 1) (some 1) = "Completed" ∧
    deriveStatus none none (some 1) = "Failed" ∧
    deriveStatus none (some 0) none = "Unknown" :=
  ⟨(deriveStatus_precedence (some 2) (some 1) (some 1)).1 (by decide),
   (deriveStatus_precedence (some 0) (some 1) (some 1)).2.1 (by decide) (by decide),
   (deriveStatus_precedence none none (some 1)).2.2.1 (by decide) (by decide) (by decide),
   (deriveStatus_precedence none (some 0) none).2.2.2 (by decide) (by decide) (by decide)⟩

/-- C5: on a 409 (already exists) create rejection the ConfigMap bundle,
the Deployment and the Service are replaced, while Job submission
re-raises the collision; every non-409 rejection is re-raised by all four
paths (none of which retries: each policy function consumes exactly one
create outcome). -/
theorem collision_policy :
    configmapCreateOrReplace (.apiError 409) = .replaced ∧
    deploymentCreateOrReplace (.apiError 409) = .replaced ∧
    serviceCreateOrReplace (.apiError 409) = .replaced ∧
    jobCreate (.apiError 409) = .raised 409 ∧
    (∀ s : Nat, s ≠ 409 →
      configmapCreateOrReplace (.apiError s) = .raised s ∧
      deploymentCreateOrReplace (.apiError s) = .raised s ∧
      serviceCreateOrReplace (.apiError s) = .raised s) ∧
    (∀ s : Nat, jobCreate (.apiError s) = .raised s) := by
  refine ⟨rfl, rfl, rfl, rfl, ?_, fun s => rfl⟩
  intro s hs
  simp [configmapCreateOrReplace, deploymentCreateOrReplace, serviceCreateOrReplace, hs]

/-- Witness for `collision_policy` at status 403 (an auth-style rejection). -/
theorem collision_policy_witness :
    configmapCreateOrReplace (.apiError 403) = .raised 403 ∧
    jobCreate (.apiError 409) = .raised 409 :=
  ⟨(collision_policy.2.2.2.2.1 403 (by decide)).1, collision_policy.2.2.2.1⟩

/-- C7: in every Job descriptor, the CPU and memory requests equal the
corresponding limits, and the `nvidia.com/gpu` extended resource appears in
requests and limits exactly when the requested GPU count is positive, with
the same value (`str(gpu)`) on both sides. -/
theorem jobResources_requests_eq_limits (cpu memory : String) (gpu : Int) :
    dictLookup (buildJobResources cpu memory gpu).requests "cpu" =
      dictLookup (buildJobResources cpu memory gpu).limits "cpu" ∧
    dictLookup (buildJobResources cpu memory gpu).requests "memory" =
      dictLookup (buildJobResources cpu memory gpu).limits "memory" ∧
    dictLookup (buildJobResources cpu memory gpu).requests "cpu" = some cpu ∧
    dictLookup (buildJobResources cpu memory gpu).requests "memory" = some memory ∧
    dictLookup (buildJobResources cpu memory gpu).requests "nvidia.com/gpu" =
      dictLookup (buildJobResources cpu memory gpu).limits "nvidia.com/gpu" ∧
    dictLookup (buildJobResources cpu memory gpu).requests "nvidia.com/gpu" =
      (if 0 < gpu then some (toString gpu) else none) := by
  by_cases hg : 0 < gpu <;>
    simp [buildJobResources, dictLookup, hg]

/-- C8: the human-readable age string uses fixed breakpoints with integer
truncation, identically in `list_jobs` and `list_model_deployments`, and
takes the documented values at the unit boundaries. -/
theorem age_formatting (a : Nat) :
    (a < 60 → ageStrJobs a = toString a ++ "s") ∧
    (60 ≤ a → a < 3600 → ageStrJobs a = toString (a / 60) ++ "m") ∧
    (3600 ≤ a → a < 86400 → ageStrJobs a = toString (a / 3600) ++ "h") ∧
    (86400 ≤ a → ageStrJobs a = toString (a / 86400) ++ "d") ∧
    ageStrDeployments a = ageStrJobs a ∧
    (ageStrJobs 59 = "59s" ∧ ageStrJobs 60 = "1m" ∧ ageStrJobs 3599 = "59m" ∧
      ageStrJobs 3600 = "1h" ∧ ageStrJobs 86399 = "23h" ∧ ageStrJobs 86400 = "1d") := by
  refine ⟨?_, ?_, ?_, ?_, ?_, by decide, by decide, by decide, by decide, by decide, by decide⟩
  · intro h; simp [ageStrJobs, h]
  · intro h h'; rw [ageStrJobs, if_neg (by omega), if_pos h']
  · intro h h'; rw [ageStrJobs, if_neg (by omega), if_neg (by omega), if_pos h']
  · intro h; rw [ageStrJobs, if_neg (by omega), if_neg (by omega), if_neg (by omega)]
  · simp [ageStrJobs, ageStrDeployments]

/-- Witness for `age_formatting` at the boundary ages. -/
theorem age_formatting_witness :
    ageStrJobs 59 = toString 59 ++ "s" ∧ ageStrJobs 3600 = toString 1 ++ "h" :=
  ⟨(age_formatting 59).1 (by decide),
   (age_formatting 3600).2.2.1 (by decide) (by decide)⟩

/-- C9: both probes of the deployment builder GET the same fixed health
path on the same port, and the liveness probe is strictly looser: its
initial delay (45s vs 30s) and period (15s vs 10s) strictly exceed the
readiness probe's. -/
theorem probe_configuration (port : Int) :
    (readinessProbe port).httpGetPath = (livenessProbe port).httpGetPath ∧
    (readinessProbe port).httpGetPort = (livenessProbe port).httpGetPort ∧
    (readinessProbe port).httpGetPath = "/health" ∧
    (readinessProbe port).httpGetPort = port ∧
    (readinessProbe port).initialDelaySeconds < (livenessProbe port).initialDelaySeconds ∧
    (readinessProbe port).periodSeconds < (livenessProbe port).periodSeconds := by
  refine ⟨rfl, rfl, rfl, rfl, ?_, ?_⟩ <;> simp [readinessProbe, livenessProbe]

/-- A poll that reports neither a positive active count nor a positive
failed count leaves the wait loop polling. -/
theorem wait_for_job_skip (st : JobStatus) (rest : List JobStatus)
    (ha : posCount st.active = false) (hf : posCount st.failed = false) :
    wait_for_job (st :: rest) = wait_for_job rest := by
  simp [wait_for_job, ha, hf]

/-- C2 counterexample: when failed and active both become nonzero in the
same poll — the first poll reported before the timeout budget elapses —
the code returns success (active is checked first), so `wait_for_job` does
not raise the job-failed error even though the job reported failed>0
strictly before the timeout. -/
theorem wait_for_job_simultaneous_counterexample :
    posCount (JobStatus.mk (some 1) none (some 1)).failed = true ∧
    wait_for_job [JobStatus.mk (some 1) none (some 1)] ≠ WaitOutcome.jobFailedError ∧
    wait_for_job [JobStatus.mk (some 1) none (some 1)] = WaitOutcome.running := by
  decide

/-- C2 (amended): if a poll within the budget reports failed>0 while active
is not yet positive, and every earlier poll reported neither counter
positive, `wait_for_job` raises the job-failed error and not the timeout
error (active>0 observed at the same poll instead yields success, per
`wait_for_job_simultaneous_counterexample`); if no poll within the budget
reports active>0 or failed>0, it raises the timeout error; and the two
error kinds are distinguishable. -/
theorem wait_for_job_failure_vs_timeout :
    (∀ (pre : List JobStatus) (st : JobStatus) (post : List JobStatus),
      (∀ s ∈ pre, posCount s.active = false ∧ posCount s.failed = false) →
      posCount st.active = false → posCount st.failed = true →
      wait_for_job (pre ++ st :: post) = WaitOutcome.jobFailedError) ∧
    (∀ polls : List JobStatus,
      (∀ s ∈ polls, posCount s.active = false ∧ posCount s.failed = false) →
      wait_for_job polls = WaitOutcome.timeoutError) ∧
    WaitOutcome.jobFailedError ≠ WaitOutcome.timeoutError := by
  refine ⟨?_, ?_, by decide⟩
  · intro pre st post hpre ha hf
    induction pre with
    | nil => simp [wait_for_job, ha, hf]
    | cons s rest ih =>
      have hs := hpre s (List.mem_cons_self s rest)
      rw [List.cons_append, wait_for_job_skip s _ hs.1 hs.2]
      exact ih (fun x hx => hpre x (List.mem_cons_of_mem s hx))
  · intro polls hpolls
    induction polls with
    | nil => rfl
    | cons s rest ih =>
      have hs := hpolls s (List.mem_cons_self s rest)
      rw [wait_for_job_skip s rest hs.1 hs.2]
      exact ih (fun x hx => hpolls x (List.mem_cons_of_mem s hx))

/-- Witness for `wait_for_job_failure_vs_timeout`: a failure observed at
the second poll raises the job-failed error; a budget of quiet polls raises
the timeout error. -/
theorem wait_for_job_failure_vs_timeout_witness :
    wait_for_job [JobStatus.mk none none none, JobStatus.mk none none (some 2)] =
      WaitOutcome.jobFailedError ∧
    wait_for_job [JobStatus.mk none none none, JobStatus.mk (some 0) (some 0) (some 0)] =
      WaitOutcome.timeoutError :=
  ⟨wait_for_job_failure_vs_timeout.1 [JobStatus.mk none none none]
      (JobStatus.mk none none (some 2)) [] (by decide) (by decide) (by decide),
   wait_for_job_failure_vs_timeout.2.1
      [JobStatus.mk none none none, JobStatus.mk (some 0) (some 0) (some 0)] (by decide)⟩

/-- `"=" not in e` is exactly the case in which the split comes back empty. -/
theorem splitEqFirst_eq_none (e : List Char) :
    splitEqFirst e = none ↔ '=' ∉ e := by
  induction e with
  | nil => simp [splitEqFirst]
  | cons c rest ih =>
    by_cases hc : c = '='
    · subst hc; simp [splitEqFirst]
    · cases h : splitEqFirst rest with
      | none =>
        simp [splitEqFirst, hc, h, ih.mp h]
        exact fun h' => hc h'.symm
      | some kv =>
        have hr : '=' ∈ rest := by
          by_contra hr
          rw [ih.mpr hr] at h
          exact Option.noConfusion h
        simp [splitEqFirst, hc, h, hr]

/-- The env loop aborts exactly when some argument has no `=`, from any
starting dict. -/
theorem parseEnvAux_eq_none (args : List (List Char)) :
    ∀ acc, parseEnvAux args acc = none ↔ ∃ e ∈ args, '=' ∉ e := by
  induction args with
  | nil => intro acc; simp [parseEnvAux]
  | cons e rest ih =>
    intro acc
    cases h : splitEqFirst e with
    | none =>
      simp [parseEnvAux, h]
      exact Or.inl ((splitEqFirst_eq_none e).mp h)
    | some kv =>
      have he : '=' ∈ e := by
        by_contra hne
        rw [(splitEqFirst_eq_none e).mpr hne] at h
        exact Option.noConfusion h
      simp [parseEnvAux, h, ih, he]

/-- Splitting `k ++ "=" ++ v` at the first `=` when `k` has none: the key
is the prefix and the value is the entire remainder. -/
theorem splitEqFirst_append (k v : List Char) (hk : '=' ∉ k) :
    splitEqFirst (k ++ '=' :: v) = some (k, v) := by
  induction k with
  | nil => simp [splitEqFirst]
  | cons c k' ih =>
    have hc : c ≠ '=' := fun h => hk (h ▸ List.mem_cons_self c k')
    have hk' : '=' ∉ k' := fun h => hk (List.mem_cons_of_mem c h)
    simp [splitEqFirst, hc, ih hk']

/-- Looking up a key right after replacing its binding in place finds the
new value. -/
theorem dictLookup_map_replace {α β : Type} [DecidableEq α]
    (d : List (α × β)) (k : α) (v : β)
    (h : d.any (fun p => p.1 = k) = true) :
    dictLookup (d.map (fun p => if p.1 = k then (k, v) else p)) k = some v := by
  induction d with
  | nil => simp at h
  | cons p rest ih =>
    by_cases hp : p.1 = k
    · simp [dictLookup, hp]
    · have hrest : rest.any (fun p => p.1 = k) = true := by
        simp [List.any_cons, hp] at h
        simpa using h
      simp [dictLookup, hp, ih hrest]

/-- Looking up a key just appended to a dict that does not bind it finds
the appended value. -/
theorem dictLookup_append_single {α β : Type} [DecidableEq α]
    (d : List (α × β)) (k : α) (v : β)
    (h : ∀ p ∈ d, p.1 ≠ k) :
    dictLookup (d ++ [(k, v)]) k = some v := by
  induction d with
  | nil => simp [dictLookup]
  | cons p rest ih =>
    have hp := h p (List.mem_cons_self p rest)
    simp [dictLookup, hp, ih (fun q hq => h q (List.mem_cons_of_mem p hq))]

/-- Python `d[k] = v` followed by `d[k]` yields `v`. -/
theorem dictLookup_dictInsert {α β : Type} [DecidableEq α]
    (d : List (α × β)) (k : α) (v : β) :
    dictLookup (dictInsert d k v) k = some v := by
  by_cases h : d.any (fun p => p.1 = k)
  · simp only [dictInsert, h, if_true]
    exact dictLookup_map_replace d k v h
  · rw [dictInsert, if_neg h]
    refine dictLookup_append_single d k v ?_
    intro q hq hqk
    exact h (List.any_eq_true.mpr ⟨q, hq, by simp [hqk]⟩)

/-- C10: an env-var argument without `=` makes the run/deploy commands
abort in the validation stage (the only branch that reaches submission is
`proceed`); an argument `k ++ "=" ++ v` whose key has no `=` is split at
the first `=` only, the value keeping any further `=` characters; and a
later argument with the same key overwrites the earlier binding, from any
dict state the earlier arguments produced. -/
theorem env_parsing_spec :
    (∀ args : List (List Char),
      run_env_stage args = EnvParseOutcome.abortedValidation ↔ ∃ e ∈ args, '=' ∉ e) ∧
    (∀ k v : List Char, '=' ∉ k → splitEqFirst (k ++ '=' :: v) = some (k, v)) ∧
    (∀ (acc : List (List Char × List Char)) (k v₁ v₂ : List Char), '=' ∉ k →
      parseEnvAux [k ++ '=' :: v₁, k ++ '=' :: v₂] acc =
        some (dictInsert (dictInsert acc k v₁) k v₂) ∧
      dictLookup (dictInsert (dictInsert acc k v₁) k v₂) k = some v₂) := by
  refine ⟨?_, splitEqFirst_append, ?_⟩
  · intro args
    cases h : parse_env_vars args with
    | none =>
      simp [run_env_stage, h]
      exact (parseEnvAux_eq_none args []).mp h
    | some d =>
      simp [run_env_stage, h]
      intro e he
      by_contra hne
      have hnone := (parseEnvAux_eq_none args []).mpr ⟨e, he, hne⟩
      simp only [parse_env_vars] at h
      rw [hnone] at h
      exact Option.noConfusion h
  · intro acc k v₁ v₂ hk
    refine ⟨?_, dictLookup_dictInsert _ k v₂⟩
    simp [parseEnvAux, splitEqFirst_append k v₁ hk, splitEqFirst_append k v₂ hk]

/-- Witness for `env_parsing_spec`: a concrete argument without `=` aborts;
`A=b=c` splits into key `A` and value `b=c`; a repeated key keeps the later
value. -/
theorem env_parsing_witness :
    run_env_stage [['K', 'E', 'Y']] = EnvParseOutcome.abortedValidation ∧
    splitEqFirst (['A'] ++ '=' :: ['b', '=', 'c']) = some (['A'], ['b', '=', 'c']) ∧
    dictLookup (dictInsert (dictInsert [] ['A'] ['1']) ['A'] ['2']) ['A'] = some ['2'] :=
  ⟨(env_parsing_spec.1 [['K', 'E', 'Y']]).mpr ⟨['K', 'E', 'Y'], by decide, by decide⟩,
   env_parsing_spec.2.1 ['A'] ['b', '=', 'c'] (by decide),
   (env_parsing_spec.2.2 [] ['A'] ['1'] ['2'] (by decide)).2⟩

/-- Replacing a character that does not occur changes nothing. -/
theorem replaceChar_not_mem (a : Char) (r s : List Char) (h : a ∉ s) :
    replaceChar a r s = s := by
  induction s with
  | nil => rfl
  | cons c t ih =>
    have hc : c ≠ a := fun hh => h (hh ▸ List.mem_cons_self c t)
    simp [replaceChar, hc, ih (fun hh => h (List.mem_cons_of_mem c hh))]

/-- Unfolding equation of `decodeKey` on a string of length at least two. -/
theorem decodeKey_two (c d : Char) (rest : List Char) :
    decodeKey (c :: d :: rest) =
      if c = '_' ∧ d = '_' then '/' :: decodeKey rest
      else c :: decodeKey (d :: rest) := rfl

/-- The decoder copies any character other than `_` and moves on. -/
theorem decodeKey_cons_ne (c : Char) (l : List Char) (hc : c ≠ '_') :
    decodeKey (c :: l) = c :: decodeKey l := by
  cases l with
  | nil => rfl
  | cons d rest => rw [decodeKey_two, if_neg (fun h => hc h.1)]

/-- A string without `__` has a tail without `__`. -/
theorem hasDunder_tail (c : Char) (t : List Char) (h : hasDunder (c :: t) = false) :
    hasDunder t = false := by
  cases t with
  | nil => rfl
  | cons d t' =>
    have h' : ((decide (c = '_') && decide (d = '_')) || hasDunder (d :: t')) = false := h
    exact (Bool.or_eq_false_iff.mp h').2

/-- A string without `_/` has a tail without `_/`. -/
theorem hasUnderscoreSlash_tail (c : Char) (t : List Char)
    (h : hasUnderscoreSlash (c :: t) = false) : hasUnderscoreSlash t = false := by
  cases t with
  | nil => rfl
  | cons d t' =>
    have h' : ((decide (c = '_') && decide (d = '/')) || hasUnderscoreSlash (d :: t')) = false := h
    exact (Bool.or_eq_false_iff.mp h').2

/-- Core round-trip: on a string without `__` and without `_/`, decoding
undoes the separator substitution `/` to `__`. -/
theorem decode_replaceSlash (s : List Char) (h1 : hasDunder s = false)
    (h2 : hasUnderscoreSlash s = false) :
    decodeKey (replaceChar '/' ['_', '_'] s) = s := by
  induction s with
  | nil => rfl
  | cons c t ih =>
    have h1t : hasDunder t = false := hasDunder_tail c t h1
    have h2t : hasUnderscoreSlash t = false := hasUnderscoreSlash_tail c t h2
    by_cases hc : c = '/'
    · subst hc
      have hstep : replaceChar '/' ['_', '_'] ('/' :: t) =
          '_' :: '_' :: replaceChar '/' ['_', '_'] t := by
        simp [replaceChar]
      rw [hstep, decodeKey_two, if_pos ⟨rfl, rfl⟩, ih h1t h2t]
    · have hrc : replaceChar '/' ['_', '_'] (c :: t) = c :: replaceChar '/' ['_', '_'] t := by
        simp [replaceChar, hc]
      rw [hrc]
      by_cases hu : c = '_'
      · subst hu
        cases t with
        | nil => rfl
        | cons d t' =>
          have hd1 : d ≠ '_' := by
            intro hd; subst hd
            exact absurd h1 (by simp [hasDunder])
          have hd2 : d ≠ '/' := by
            intro hd; subst hd
            exact absurd h2 (by simp [hasUnderscoreSlash])
          have hrd : replaceChar '/' ['_', '_'] (d :: t') =
              d :: replaceChar '/' ['_', '_'] t' := by
            simp [replaceChar, hd2]
          rw [hrd, decodeKey_two, if_neg (fun h => hd1 h.2), ← hrd, ih h1t h2t]
      · rw [decodeKey_cons_ne c _ hu, ih h1t h2t]

/-- C3 counterexample: the relative path `a_/b` contains no literal `__`,
yet encoding it to a bundle key and decoding the key in the container
yields `a/_b`, not the original path — the claim's condition does not make
the encoding reversible. -/
theorem encode_decode_counterexample :
    hasDunder ['a', '_', '/', 'b'] = false ∧
    decodeKey (encodeKey ['a', '_', '/', 'b']) = ['a', '/', '_', 'b'] ∧
    decodeKey (encodeKey ['a', '_', '/', 'b']) ≠ ['a', '_', '/', 'b'] := by
  decide

/-- C3 (amended): for every relative path containing no literal `__`, no
underscore immediately before a `/` separator, and no backslash,
encode-then-decode recovers the original path exactly. -/
theorem encode_decode_roundtrip (s : List Char) (h1 : hasDunder s = false)
    (h2 : hasUnderscoreSlash s = false) (h3 : '\\' ∉ s) :
    decodeKey (encodeKey s) = s := by
  rw [encodeKey, replaceChar_not_mem '\\' ['_', '_'] s h3]
  exact decode_replaceSlash s h1 h2

/-- Witness for `encode_decode_roundtrip` on the concrete nested path
`src/a.py`. -/
theorem encode_decode_roundtrip_witness :
    decodeKey (encodeKey ['s', 'r', 'c', '/', 'a', '.', 'p', 'y']) =
      ['s', 'r', 'c', '/', 'a', '.', 'p', 'y'] :=
  encode_decode_roundtrip ['s', 'r', 'c', '/', 'a', '.', 'p', 'y']
    (by decide) (by decide) (by decide)

/-- The filter underlying the packaging loop, unfolded one file at a time. -/
theorem includedFiles_cons (f : FileEntry) (rest : List FileEntry) :
    includedFiles (f :: rest) =
      if should_exclude f.parts then includedFiles rest
      else f :: includedFiles rest := by
  by_cases h : should_exclude f.parts <;> simp [includedFiles, List.filter, h]

/-- The running `total_size` of the packaging loop equals the starting
value plus the sum of the encoded content lengths of the included files. -/
theorem packFold_total (files : List FileEntry) :
    ∀ acc : List (List Char × List Char) × Nat,
      (files.foldl packStep acc).2 =
        acc.2 + ((includedFiles files).map (fun f => encodedLen f.content)).sum := by
  induction files with
  | nil => intro acc; simp [includedFiles]
  | cons f rest ih =>
    intro acc
    by_cases he : should_exclude f.parts
    · rw [List.foldl_cons, ih, includedFiles_cons, if_pos he]
      simp [packStep, he]
    · rw [List.foldl_cons, ih, includedFiles_cons, if_neg he]
      simp [packStep, he]
      omega

/-- C6 counterexample: `train.py` with empty content is an included file,
yet adding it leaves the cumulative size unchanged — adding one included
file does not always strictly increase the sum. -/
theorem configmap_size_counterexample :
    should_exclude [['t', 'r', 'a', 'i', 'n', '.', 'p', 'y']] = false ∧
    (create_configmap_data
        [FileEntry.mk [['t', 'r', 'a', 'i', 'n', '.', 'p', 'y']] (FileContent.text [])]).total =
      (create_configmap_data []).total := by
  decide

/-- C6 (amended): the cumulative size emitted by the packager equals the
sum of the encoded content lengths of the included (non-excluded) entries;
adding one file matching an exclusion pattern does not change the sum;
adding one included file with non-empty encoded content strictly increases
it; and the non-fatal warning flag is exactly the comparison of the sum
with the 2,000,000 threshold, the bundle data being built regardless. -/
theorem configmap_size_accounting :
    (∀ files : List FileEntry,
      (create_configmap_data files).total =
        ((includedFiles files).map (fun f => encodedLen f.content)).sum) ∧
    (∀ (files : List FileEntry) (f : FileEntry), should_exclude f.parts = true →
      (create_configmap_data (files ++ [f])).total = (create_configmap_data files).total) ∧
    (∀ (files : List FileEntry) (f : FileEntry), should_exclude f.parts = false →
      0 < encodedLen f.content →
      (create_configmap_data files).total < (create_configmap_data (files ++ [f])).total) ∧
    (∀ files : List FileEntry,
      (create_configmap_data files).warned =
        decide (2000000 < (create_configmap_data files).total) ∧
      (create_configmap_data files).data = (files.foldl packStep ([], 0)).1) := by
  have htot : ∀ files : List FileEntry,
      (create_configmap_data files).total =
        ((includedFiles files).map (fun f => encodedLen f.content)).sum := by
    intro files
    have := packFold_total files ([], 0)
    simpa [create_configmap_data] using this
  have happ : ∀ (files : List FileEntry) (f : FileEntry),
      includedFiles (files ++ [f]) = includedFiles files ++ includedFiles [f] := by
    intro files f
    simp [includedFiles, List.filter_append]
  refine ⟨htot, ?_, ?_, fun files => ⟨rfl, rfl⟩⟩
  · intro files f he
    rw [htot, htot, happ, includedFiles_cons, if_pos he]
    simp [includedFiles]
  · intro files f he hlen
    rw [htot, htot, happ, includedFiles_cons, if_neg (by simp [he])]
    simp [includedFiles]
    omega

/-- Witness for `configmap_size_accounting`: an excluded `x.pyc` leaves the
sum unchanged; an included one-character `a.py` strictly increases it. -/
theorem configmap_size_witness :
    (create_configmap_data []).total <
      (create_configmap_data
        ([] ++ [FileEntry.mk [['a', '.', 'p', 'y']] (FileContent.text ['x'])])).total ∧
    (create_configmap_data
        ([] ++ [FileEntry.mk [['x', '.', 'p', 'y', 'c']] (FileContent.text ['x'])])).total =
      (create_configmap_data []).total :=
  ⟨configmap_size_accounting.2.2.1 []
      (FileEntry.mk [['a', '.', 'p', 'y']] (FileContent.text ['x'])) (by decide) (by decide),
   configmap_size_accounting.2.1 []
      (FileEntry.mk [['x', '.', 'p', 'y', 'c']] (FileContent.text ['x'])) (by decide)⟩

/-- Every character of a replacement result comes from the replacement
string or is an untouched character of the input. -/
theorem mem_replaceChar (a : Char) (r s : List Char) (c : Char)
    (h : c ∈ replaceChar a r s) : c ∈ r ∨ (c ∈ s ∧ c ≠ a) := by
  induction s with
  | nil => simp [replaceChar] at h
  | cons c0 t ih =>
    rw [replaceChar] at h
    rcases List.mem_append.mp h with h' | h'
    · by_cases h0 : c0 = a
      · rw [if_pos h0] at h'
        exact Or.inl h'
      · rw [if_neg h0] at h'
        have : c = c0 := List.mem_singleton.mp h'
        exact Or.inr ⟨this ▸ List.mem_cons_self c0 t, this ▸ h0⟩
    · rcases ih h' with h'' | ⟨hm, hn⟩
      · exact Or.inl h''
      · exact Or.inr ⟨List.mem_cons_of_mem c0 hm, hn⟩

/-- Replacing a character by a non-empty string keeps a non-empty string
non-empty. -/
theorem replaceChar_ne_nil (a : Char) (r s : List Char)
    (hs : s ≠ []) (hr : r ≠ []) : replaceChar a r s ≠ [] := by
  cases s with
  | nil => exact absurd rfl hs
  | cons c0 t =>
    rw [replaceChar]
    intro h
    rcases List.append_eq_nil.mp h with ⟨h1, _⟩
    by_cases h0 : c0 = a
    · rw [if_pos h0] at h1
      exact hr h1
    · rw [if_neg h0] at h1
      exact List.cons_ne_nil c0 [] h1

/-- Every character of a rendered path is the separator or a character of
some component. -/
theorem mem_renderPath (parts : List (List Char)) (c : Char)
    (h : c ∈ renderPath parts) : c = '/' ∨ ∃ p ∈ parts, c ∈ p := by
  induction parts with
  | nil => simp [renderPath] at h
  | cons p rest ih =>
    cases rest with
    | nil =>
      exact Or.inr ⟨p, List.mem_cons_self p [], h⟩
    | cons q rest' =>
      rw [renderPath] at h
      rcases List.mem_append.mp h with h' | h'
      · exact Or.inr ⟨p, List.mem_cons_self p _, h'⟩
      · rcases List.mem_cons.mp h' with h'' | h''
        · exact Or.inl h''
        · rcases ih h'' with h3 | ⟨p', hp', hc⟩
          · exact Or.inl h3
          · exact Or.inr ⟨p', List.mem_cons_of_mem p hp', hc⟩

/-- A path with at least one component, all components non-empty, renders
to a non-empty string. -/
theorem renderPath_ne_nil (parts : List (List Char))
    (hne : parts ≠ []) (hp : ∀ p ∈ parts, p ≠ []) : renderPath parts ≠ [] := by
  cases parts with
  | nil => exact absurd rfl hne
  | cons p rest =>
    cases rest with
    | nil => exact hp p (List.mem_cons_self p [])
    | cons q rest' =>
      rw [renderPath]
      intro h
      rcases List.append_eq_nil.mp h with ⟨_, h2⟩
      exact List.cons_ne_nil '/' _ h2

/-- The encoded bundle key of a path whose component characters all lie in
the ConfigMap key character class is a valid key. -/
theorem isValidKey_encodeKey (parts : List (List Char))
    (hne : parts ≠ [])
    (hp : ∀ p ∈ parts, p ≠ [] ∧ ∀ c ∈ p, isKeyChar c = true) :
    isValidKey (encodeKey (renderPath parts)) = true := by
  have hrne : renderPath parts ≠ [] :=
    renderPath_ne_nil parts hne (fun p h => (hp p h).1)
  have hinner : replaceChar '\\' ['_', '_'] (renderPath parts) ≠ [] :=
    replaceChar_ne_nil '\\' ['_', '_'] (renderPath parts) hrne (by decide)
  have houter : encodeKey (renderPath parts) ≠ [] :=
    replaceChar_ne_nil '/' ['_', '_'] _ hinner (by decide)
  rw [isValidKey, Bool.and_eq_true]
  constructor
  · simpa [List.isEmpty_iff] using houter
  · rw [List.all_eq_true]
    intro c hc
    rcases mem_replaceChar '/' ['_', '_'] _ c hc with h1 | ⟨h1, hslash⟩
    · rcases List.mem_cons.mp h1 with h | h
      · subst h; decide
      · rcases List.mem_cons.mp h with h' | h'
        · subst h'; decide
        · simp at h'
    · rcases mem_replaceChar '\\' ['_', '_'] _ c h1 with h2 | ⟨h2, _⟩
      · rcases List.mem_cons.mp h2 with h | h
        · subst h; decide
        · rcases List.mem_cons.mp h with h' | h'
          · subst h'; decide
          · simp at h'
      · rcases mem_renderPath parts c h2 with h3 | ⟨p, hmem, hcp⟩
        · exact absurd h3 hslash
        · exact (hp p hmem).2 c hcp

/-- A dict assignment can only contribute its own key to the key set. -/
theorem mem_keys_dictInsert {α β : Type} [DecidableEq α]
    (d : List (α × β)) (k : α) (v : β) (k' : α)
    (h : k' ∈ (dictInsert d k v).map (fun p => p.1)) :
    k' ∈ d.map (fun p => p.1) ∨ k' = k := by
  rw [dictInsert] at h
  by_cases hany : d.any (fun p => p.1 = k)
  · rw [if_pos hany] at h
    rw [List.map_map, List.mem_map] at h
    rcases h with ⟨p, hp, hk'⟩
    by_cases hpk : p.1 = k
    · right
      rw [← hk']
      simp [hpk]
    · left
      rw [List.mem_map]
      refine ⟨p, hp, ?_⟩
      rw [← hk']
      simp [hpk]
  · rw [if_neg hany, List.map_append, List.mem_append] at h
    rcases h with h | h
    · exact Or.inl h
    · right
      simpa using h

/-- Every key produced by the packaging loop either was already in the
accumulator or is the encoded relative path of some included input file. -/
theorem packFold_keys (files : List FileEntry) :
    ∀ (acc : List (List Char × List Char) × Nat) (k : List Char),
      k ∈ (files.foldl packStep acc).1.map (fun p => p.1) →
      k ∈ acc.1.map (fun p => p.1) ∨
        ∃ f ∈ files, should_exclude f.parts = false ∧
          k = encodeKey (renderPath f.parts) := by
  induction files with
  | nil => intro acc k h; exact Or.inl h
  | cons f rest ih =>
    intro acc k h
    rw [List.foldl_cons] at h
    rcases ih (packStep acc f) k h with h' | ⟨g, hg, hex, hk⟩
    · by_cases he : should_exclude f.parts
      · rw [packStep, if_pos he] at h'
        exact Or.inl h'
      · rw [packStep, if_neg he] at h'
        rcases mem_keys_dictInsert acc.1 _ _ k h' with h'' | h''
        · exact Or.inl h''
        · exact Or.inr ⟨f, List.mem_cons_self f rest,
            Bool.not_eq_true _ ▸ eq_false_of_ne_true he, h''⟩
    · exact Or.inr ⟨g, List.mem_cons_of_mem f hg, hex, hk⟩

/-- C4 counterexample: a directory holding the single file `a b.txt` (a
space in the name) is packaged into a Bundle whose only key contains the
space, which the class `[-._a-zA-Z0-9]+` forbids. -/
theorem bundle_key_charset_counterexample :
    bundleKeys
        [FileEntry.mk [['a', ' ', 'b', '.', 't', 'x', 't']] (FileContent.text ['x'])] =
      [['a', ' ', 'b', '.', 't', 'x', 't']] ∧
    isValidKey ['a', ' ', 'b', '.', 't', 'x', 't'] = false := by
  decide

/-- C4 (amended): for every input directory whose file paths are non-empty
and made of non-empty components whose characters all lie in the class
`[-._a-zA-Z0-9]`, every key of the Bundle produced by the packager is
non-empty and matches `[-._a-zA-Z0-9]+` (path separators having been
replaced by `__`). -/
theorem bundle_keys_charset (files : List FileEntry)
    (h : ∀ f ∈ files, f.parts ≠ [] ∧
      ∀ p ∈ f.parts, p ≠ [] ∧ ∀ c ∈ p, isKeyChar c = true) :
    ∀ k ∈ bundleKeys files, isValidKey k = true := by
  intro k hk
  have hk' : k ∈ (files.foldl packStep ([], 0)).1.map (fun p => p.1) := hk
  rcases packFold_keys files ([], 0) k hk' with h' | ⟨f, hf, _, hkey⟩
  · simp at h'
  · rw [hkey]
    exact isValidKey_encodeKey f.parts (h f hf).1 (h f hf).2

/-- Witness for `bundle_keys_charset`: the Bundle of a directory holding
`src/a.py` has the single key `src__a.py`, which is valid. -/
theorem bundle_keys_charset_witness :
    isValidKey ['s', 'r', 'c', '_', '_', 'a', '.', 'p', 'y'] = true :=
  bundle_keys_charset
    [FileEntry.mk [['s', 'r', 'c'], ['a', '.', 'p', 'y']] (FileContent.text ['x'])]
    (by decide) ['s', 'r', 'c', '_', '_', 'a', '.', 'p', 'y'] (by decide)

